import Mathlib

/-!
Verification of the nosr parser library (`libnosr-rs`).

The Rust sources are embedded shallowly:

* source text is a `List Char` (`Src`); byte positions of the Rust code become
  character indices (the Rust lexer only ever stops on UTF-8 character
  boundaries, so the two index systems are in order-preserving bijection and
  all observable behaviour is preserved);
* the lexer's mutable `pos` is threaded explicitly: every lexer operation
  takes the current absolute position `pos` and the remaining input `rem`
  (the invariant `rem = source.drop pos` is maintained by construction) and
  returns the updated pair;
* loops become fuel-indexed structural recursion; every loop iteration of the
  Rust code consumes at least one character or returns, so fuel
  `rem.length + 1` is always sufficient and the fuel-exhaustion branches are
  unreachable (this is proved where a claim depends on it);
* `Result<T, Error>` becomes `Except Error T`, `Cow<'a, str>` becomes `Cow`
  with explicit `borrowed`/`owned` constructors, and `HashMap<String, Node>`
  becomes an association list built with last-write-wins insertion.
-/

namespace Nosr

/-- Source text, modelled as a list of characters. -/
abbrev Src := List Char

/-! ## Span (src/span.rs) -/

/-- A span representing a region in the source document (span.rs). -/
structure Span where
  start : Nat
  len : Nat
deriving DecidableEq, Repr

/-- Rust `Span::end()`: the exclusive end position. -/
def Span.stop (s : Span) : Nat := s.start + s.len

/-- Rust `Span::extract`: `&source[start..end]`. -/
def Span.extract (sp : Span) (source : Src) : Src :=
  (source.drop sp.start).take sp.len

/-! ## Tokens and errors (src/lexer.rs, src/error.rs) -/

/-- Token kinds produced by the lexer (lexer.rs `TokenKind`). -/
inductive TokenKind where
  | leftBrace
  | rightBrace
  | leftBracket
  | rightBracket
  | colon
  | comma
  | newline
  | string
  | scalar
  | eof
deriving DecidableEq, Repr

/-- A token: kind plus source span (lexer.rs `Token`). -/
structure Token where
  kind : TokenKind
  span : Span
deriving DecidableEq, Repr

/-- Error kinds (error.rs `ErrorKind`).  `node.rs` additionally constructs
`ErrorKind::ConsecutiveDelimiters`, a variant that `error.rs` does not
declare (the crate as committed does not compile because of this); it is
included here so that the behaviour written in `node.rs` can be modelled. -/
inductive ErrorKind where
  | unexpectedEof
  | unexpectedChar (c : Char)
  | expectedChar (c : Char)
  | invalidEscape (c : Char)
  | unclosedString
  | unclosedComment
  | notATable
  | notAVector
  | notAScalar
  | keyNotFound (k : Src)
  | indexOutOfBounds (i : Nat)
  | parseError (msg : Src)
  | consecutiveDelimiters
deriving DecidableEq, Repr

/-- An error: kind plus the span where it occurred (error.rs `Error`). -/
structure Error where
  kind : ErrorKind
  span : Span
deriving DecidableEq, Repr

/-! ## Node (src/node.rs) -/

/-- A lazy node: the full source plus the span of this value (node.rs `Node`). -/
structure Node where
  source : Src
  span : Span
deriving DecidableEq, Repr

/-- Rust `Node::raw()`: the raw text of the node. -/
def Node.raw (n : Node) : Src := n.span.extract n.source

/-- Model of `std::borrow::Cow<'a, str>`: the tag records whether the text
was returned without copying. -/
inductive Cow where
  | borrowed (s : Src)
  | owned (s : Src)
deriving DecidableEq, Repr

/-- Rust `Cow::into_owned` as used for table keys: the underlying text. -/
def Cow.list : Cow → Src
  | .borrowed s => s
  | .owned s => s

/-- Decidable equality of results, used to evaluate concrete cases. -/
instance {ε α : Type} [DecidableEq ε] [DecidableEq α] : DecidableEq (Except ε α) :=
  fun x y =>
    match x, y with
    | .ok a, .ok b => if h : a = b then .isTrue (by rw [h]) else .isFalse (by simp [h])
    | .error a, .error b => if h : a = b then .isTrue (by rw [h]) else .isFalse (by simp [h])
    | .ok _, .error _ => .isFalse (by simp)
    | .error _, .ok _ => .isFalse (by simp)

/-! ## Lexer (src/lexer.rs) -/

/-- Whitespace skipped silently by the lexer: space, tab, carriage return
(lexer.rs `skip_whitespace`; newlines are significant and excluded). -/
def isLexWs (c : Char) : Bool :=
  c = ' ' || c = '\t' || c = '\r'

/-- Rust `Lexer::skip_whitespace`. -/
def skipWhitespace : Nat → Src → Nat × Src
  | pos, [] => (pos, [])
  | pos, c :: rest =>
    if isLexWs c then skipWhitespace (pos + 1) rest else (pos, c :: rest)

/-- Body of `Lexer::skip_line_comment` after the `#` is consumed: skip
characters until a consumed newline (inclusive) or end of input. -/
def lineLoop : Nat → Src → Nat × Src
  | pos, [] => (pos, [])
  | pos, c :: rest =>
    if c = '\n' then (pos + 1, rest) else lineLoop (pos + 1) rest

/-- Rust `Lexer::skip_line_comment`: consume the `#`, then until newline. -/
def skipLineComment (pos : Nat) (rem : Src) : Nat × Src :=
  match rem with
  | [] => (pos, [])
  | _ :: rest => lineLoop (pos + 1) rest

/-- Body of `Lexer::skip_block_comment` after the `#*` is consumed: scan for
the first `*#`.  `start` is the position of the opening `#`. -/
def blockLoop (start : Nat) : Nat → Src → Except Error (Nat × Src)
  | pos, [] => .error ⟨.unclosedComment, ⟨start, pos - start⟩⟩
  | pos, c :: rest =>
    if c = '*' ∧ rest.head? = some '#' then .ok (pos + 2, rest.tail)
    else blockLoop start (pos + 1) rest

/-- Rust `Lexer::skip_block_comment`: consume `#*`, then scan for `*#`.
Only called when the input starts with `#*`. -/
def skipBlockComment (pos : Nat) (rem : Src) : Except Error (Nat × Src) :=
  blockLoop pos (pos + 2) (rem.drop 2)

/-- Body of `Lexer::lex_string` after the opening quote is consumed.
`start` is the position of the opening quote. -/
def stringLoop (start : Nat) : Nat → Src → Except Error (Token × Nat × Src)
  | pos, [] => .error ⟨.unclosedString, ⟨start, pos - start⟩⟩
  | pos, c :: rest =>
    if c = '"' then .ok (⟨.string, ⟨start, pos + 1 - start⟩⟩, pos + 1, rest)
    else if c = '\\' then
      match rest with
      | [] => .error ⟨.unclosedString, ⟨start, pos + 1 - start⟩⟩
      | _ :: rest' => stringLoop start (pos + 2) rest'
    else stringLoop start (pos + 1) rest

/-- Rust `Lexer::lex_string`.  Only called when the input starts with `"`. -/
def lexString (pos : Nat) (rem : Src) : Except Error (Token × Nat × Src) :=
  match rem with
  | [] => .error ⟨.unclosedString, ⟨pos, 0⟩⟩
  | _ :: rest => stringLoop pos (pos + 1) rest

/-- Scalar termination test of `Lexer::lex_scalar`: structural characters,
whitespace, newline, or the start of a block comment `#*`. -/
def isScalarStop (c : Char) (rest : Src) : Bool :=
  c = '\x7b' || c = '\x7d' || c = '[' || c = ']' || c = ':' || c = ',' ||
  c = '\n' || c = ' ' || c = '\t' || c = '\r' ||
  (c = '#' && rest.head? = some '*')

/-- Body of `Lexer::lex_scalar`: consume until a stop character. -/
def scalarLoop : Nat → Src → Nat × Src
  | pos, [] => (pos, [])
  | pos, c :: rest =>
    if isScalarStop c rest then (pos, c :: rest) else scalarLoop (pos + 1) rest

/-- Rust `Lexer::lex_scalar`. -/
def lexScalar (pos : Nat) (rem : Src) : Token × Nat × Src :=
  let p := scalarLoop pos rem
  (⟨.scalar, ⟨pos, p.1 - pos⟩⟩, p.1, p.2)

/-- Rust `Lexer::next_token`.  The fuel bounds the number of comments skipped
in the internal loop; each comment consumes at least one character, so fuel
`rem.length + 1` (used by `nextTok`) makes the fuel-exhaustion branch
unreachable. -/
def nextTokenF : Nat → Nat → Src → Except Error (Token × Nat × Src)
  | 0, pos, _ => .error ⟨.unexpectedEof, ⟨pos, 0⟩⟩
  | fuel + 1, pos0, rem0 =>
    let s := skipWhitespace pos0 rem0
    let pos := s.1
    match s.2 with
    | [] => .ok (⟨.eof, ⟨pos, 0⟩⟩, pos, [])
    | c :: rest =>
      if c = '\n' then .ok (⟨.newline, ⟨pos, 1⟩⟩, pos + 1, rest)
      else if c = '\x7b' then .ok (⟨.leftBrace, ⟨pos, 1⟩⟩, pos + 1, rest)
      else if c = '\x7d' then .ok (⟨.rightBrace, ⟨pos, 1⟩⟩, pos + 1, rest)
      else if c = '[' then .ok (⟨.leftBracket, ⟨pos, 1⟩⟩, pos + 1, rest)
      else if c = ']' then .ok (⟨.rightBracket, ⟨pos, 1⟩⟩, pos + 1, rest)
      else if c = ':' then .ok (⟨.colon, ⟨pos, 1⟩⟩, pos + 1, rest)
      else if c = ',' then .ok (⟨.comma, ⟨pos, 1⟩⟩, pos + 1, rest)
      else if c = '"' then lexString pos (c :: rest)
      else if c = '#' then
        if rest.head? = some '*' then
          match skipBlockComment pos (c :: rest) with
          | .error e => .error e
          | .ok s' => nextTokenF fuel s'.1 s'.2
        else
          let s' := skipLineComment pos (c :: rest)
          nextTokenF fuel s'.1 s'.2
      else .ok (lexScalar pos (c :: rest))

/-- `Lexer::next_token` with sufficient fuel: the form used by every caller. -/
def nextTok (pos : Nat) (rem : Src) : Except Error (Token × Nat × Src) :=
  nextTokenF (rem.length + 1) pos rem

/-! ## Document entry point (src/parser.rs) -/

/-- The leading-newline skip of `parser::document`. -/
def skipNewlinesF : Nat → Nat → Src → Except Error (Token × Nat × Src)
  | 0, pos, _ => .error ⟨.unexpectedEof, ⟨pos, 0⟩⟩
  | fuel + 1, pos, rem =>
    match nextTok pos rem with
    | .error e => .error e
    | .ok (tok, pos', rem') =>
      if tok.kind = .newline then skipNewlinesF fuel pos' rem'
      else .ok (tok, pos', rem')

/-- The scan-to-end loop of `parser::document`: track the span of the last
non-newline token. -/
def docLoopF : Nat → Nat → Src → Span → Except Error Span
  | 0, pos, _, _ => .error ⟨.unexpectedEof, ⟨pos, 0⟩⟩
  | fuel + 1, pos, rem, lastSpan =>
    match nextTok pos rem with
    | .error e => .error e
    | .ok (tok, pos', rem') =>
      if tok.kind = .eof then .ok lastSpan
      else docLoopF fuel pos' rem'
        (if tok.kind = .newline then lastSpan else tok.span)

/-- Rust `parser::document`. -/
def document (source : Src) : Except Error Node :=
  match skipNewlinesF (source.length + 1) 0 source with
  | .error e => .error e
  | .ok (first, pos, rem) =>
    if first.kind = .eof then .ok ⟨source, ⟨0, 0⟩⟩
    else
      match docLoopF (rem.length + 1) pos rem first.span with
      | .error e => .error e
      | .ok lastSpan =>
        .ok ⟨source, ⟨first.span.start, lastSpan.stop - first.span.start⟩⟩

/-! ## Scalar coercion: text (src/node.rs `text`) -/

/-- Rust `str::trim`: strips Unicode `White_Space` characters from both
ends.  The code points are the Unicode `White_Space` set used by
`char::is_whitespace`. -/
def isRustWs (c : Char) : Bool :=
  (0x9 ≤ c.toNat && c.toNat ≤ 0xD) || c.toNat = 0x20 || c.toNat = 0x85 ||
  c.toNat = 0xA0 || c.toNat = 0x1680 ||
  (0x2000 ≤ c.toNat && c.toNat ≤ 0x200A) ||
  c.toNat = 0x2028 || c.toNat = 0x2029 || c.toNat = 0x202F ||
  c.toNat = 0x205F || c.toNat = 0x3000

/-- Rust `str::trim` on a character list. -/
def trim (l : Src) : Src :=
  ((l.dropWhile isRustWs).reverse.dropWhile isRustWs).reverse

/-- The fixed escape table of `node::text`, in the order of the Rust match. -/
def escapeChar (c : Char) : Option Char :=
  if c = '\\' then some '\\'
  else if c = 'n' then some '\n'
  else if c = 't' then some '\t'
  else if c = 'r' then some '\r'
  else if c = ':' then some ':'
  else if c = '"' then some '"'
  else if c = '[' then some '['
  else if c = ']' then some ']'
  else if c = '\x7b' then some '\x7b'
  else if c = '\x7d' then some '\x7d'
  else none

/-- The character loop of `node::text` over the interior of a quoted string:
`result` is the lazily-allocated output (`None` while no escape has been
seen), `pos` the number of characters already processed. -/
def textLoop (inner : Src) (sp : Span) : Src → Option Src → Nat → Except Error (Option Src)
  | [], result, _ => .ok result
  | c :: chars, result, pos =>
    if c = '\\' then
      let s := result.getD (inner.take pos)
      match chars with
      | [] => .error ⟨.unexpectedEof, sp⟩
      | e :: chars' =>
        match escapeChar e with
        | some lit => textLoop inner sp chars' (some (s ++ [lit])) (pos + 2)
        | none => .error ⟨.invalidEscape e, sp⟩
    else
      let result' := match result with
        | some s => some (s ++ [c])
        | none => none
      textLoop inner sp chars result' (pos + 1)

/-- Rust `node::text`.  The Rust guard `!content.ends_with('"') ||
content.len() < 2` is written here in the positive: proceed only when the
text ends with `"` and has length at least 2. -/
def text (n : Node) : Except Error Cow :=
  let content := trim n.raw
  if content = [] then .error ⟨.notAScalar, n.span⟩
  else if content.head? = some '"' then
    if content.getLast? = some '"' ∧ 2 ≤ content.length then
      let inner := (content.drop 1).dropLast
      match textLoop inner n.span inner none 0 with
      | .error e => .error e
      | .ok none => .ok (.borrowed inner)
      | .ok (some s) => .ok (.owned s)
    else .error ⟨.unclosedString, n.span⟩
  else .ok (.borrowed content)

/-! ## Scalar coercion: uint64 (src/node.rs `uint64`, Rust `u64::from_str`) -/

/-- The largest value of `u64`. -/
def u64Max : Nat := 18446744073709551615

/-- ASCII decimal digit test. -/
def isDigitCh (c : Char) : Bool :=
  decide ('0' ≤ c ∧ c ≤ '9')

/-- Rust `char::to_digit(10)`. -/
def charToDigit (c : Char) : Option Nat :=
  if isDigitCh c then some (c.toNat - '0'.toNat) else none

/-- Message of Rust `ParseIntError { kind: Empty }`. -/
def emptyIntMsg : Src := "cannot parse integer from empty string".toList

/-- Message of Rust `ParseIntError { kind: InvalidDigit }`. -/
def invalidDigitMsg : Src := "invalid digit found in string".toList

/-- Message of Rust `ParseIntError { kind: PosOverflow }`. -/
def posOverflowMsg : Src := "number too large to fit in target type".toList

/-- The digit loop of Rust `u64::from_str_radix` (radix 10): checked
multiply, checked add. -/
def fromStrRadixLoop : Src → Nat → Except Src Nat
  | [], acc => .ok acc
  | c :: rest, acc =>
    match charToDigit c with
    | none => .error invalidDigitMsg
    | some d =>
      if u64Max < acc * 10 then .error posOverflowMsg
      else if u64Max < acc * 10 + d then .error posOverflowMsg
      else fromStrRadixLoop rest (acc * 10 + d)

/-- Rust `u64::from_str` = `from_str_radix(src, 10)` for the unsigned type:
empty input is `Empty`; a leading `+` is allowed (`-` is not, and a lone
sign is `InvalidDigit`); then the checked digit loop. -/
def fromStrRadixU64 (src : Src) : Except Src Nat :=
  match src with
  | [] => .error emptyIntMsg
  | c :: rest =>
    if (c = '+' ∨ c = '-') ∧ rest = [] then .error invalidDigitMsg
    else if c = '+' then fromStrRadixLoop rest 0
    else if c = '-' then .error invalidDigitMsg
    else fromStrRadixLoop (c :: rest) 0

/-- Rust `node::uint64`: trim, parse as `u64`, wrap failures in
`ParseError("failed to parse as u64: {e}")` at the node's span. -/
def uint64 (n : Node) : Except Error Nat :=
  let content := trim n.raw
  match fromStrRadixU64 content with
  | .ok v => .ok v
  | .error m => .error ⟨.parseError ("failed to parse as u64: ".toList ++ m), n.span⟩

/-! ## Scalar coercion: double (src/node.rs `double`, Rust `f64::from_str`)

The acceptance grammar of Rust `f64::from_str` (`core::num::dec2flt`) is
modelled exactly: optional sign, then either a decimal number
(digits, optional fraction, optional exponent, at least one mantissa digit,
whole input consumed) or a case-insensitive special (`inf`, `infinity`,
`nan`).  The numeric value is modelled as an exact rational; rounding to the
nearest binary double is not modelled (the claims only evaluate `double` at
values that are exactly representable, where rounding is the identity). -/

/-- Value of a parsed float. -/
inductive FloatVal where
  | finite (q : ℚ)
  | inf (neg : Bool)
  | nan
deriving DecidableEq, Repr

/-- ASCII lowercase folding (Rust `eq_ignore_ascii_case`). -/
def asciiLower (c : Char) : Char :=
  if 'A' ≤ c && c ≤ 'Z' then Char.ofNat (c.toNat + 32) else c

/-- Rust `eq_ignore_ascii_case` on character lists. -/
def eqIgnoreAsciiCase : Src → Src → Bool
  | [], [] => true
  | c :: cs, d :: ds => asciiLower c = asciiLower d && eqIgnoreAsciiCase cs ds
  | _, _ => false

/-- Split a leading run of ASCII digits (dec2flt `try_parse_digits`). -/
def digitSpan : Src → Src × Src
  | [] => ([], [])
  | c :: rest =>
    if isDigitCh c then
      let p := digitSpan rest
      (c :: p.1, p.2)
    else ([], c :: rest)

/-- Numeric value of a digit list (most significant first). -/
def natOfDigits (l : Src) : Nat :=
  l.foldl (fun acc c => acc * 10 + (c.toNat - '0'.toNat)) 0

/-- The exact value of a decimal mantissa/exponent pair, with sign. -/
def decValue (neg : Bool) (mantissa : Src) (exp : Int) : ℚ :=
  let m : ℚ := (natOfDigits mantissa : ℚ)
  let q : ℚ :=
    if 0 ≤ exp then m * (10 : ℚ) ^ exp.toNat else m / (10 : ℚ) ^ (-exp).toNat
  if neg then -q else q

/-- Rust dec2flt `parse_number` on the input after the sign: digits,
optional `.` fraction, optional `e`/`E` exponent with its own optional sign
and at least one digit; at least one mantissa digit; the whole input must be
consumed. -/
def parseNumber (s : Src) (neg : Bool) : Option FloatVal :=
  let ip := digitSpan s
  let fp : Src × Src :=
    if ip.2.head? = some '.' then digitSpan ip.2.tail else ([], ip.2)
  if ip.1.length + fp.1.length = 0 then none
  else
    let mantissa := ip.1 ++ fp.1
    let fracExp : Int := -(fp.1.length : Int)
    match fp.2 with
    | [] => some (.finite (decValue neg mantissa fracExp))
    | e :: r =>
      if e = 'e' ∨ e = 'E' then
        let sr : Bool × Src :=
          if r.head? = some '+' then (false, r.tail)
          else if r.head? = some '-' then (true, r.tail)
          else (false, r)
        let ed := digitSpan sr.2
        if ed.1 = [] ∨ ¬ ed.2 = [] then none
        else
          let expVal : Int :=
            if sr.1 then fracExp - (natOfDigits ed.1 : Int)
            else fracExp + (natOfDigits ed.1 : Int)
          some (.finite (decValue neg mantissa expVal))
      else none

/-- Rust dec2flt `parse_inf_nan`: case-insensitive `inf`, `infinity`, `nan`. -/
def parseSpecial (s : Src) (neg : Bool) : Option FloatVal :=
  if eqIgnoreAsciiCase s ['i', 'n', 'f']
      || eqIgnoreAsciiCase s ['i', 'n', 'f', 'i', 'n', 'i', 't', 'y'] then
    some (.inf neg)
  else if eqIgnoreAsciiCase s ['n', 'a', 'n'] then some .nan
  else none

/-- Message of Rust `ParseFloatError` for empty input. -/
def emptyFloatMsg : Src := "cannot parse float from empty string".toList

/-- Message of Rust `ParseFloatError` for a malformed literal. -/
def invalidFloatMsg : Src := "invalid float literal".toList

/-- Rust `f64::from_str` (`dec2flt`): sign, then number or special. -/
def dec2flt (s : Src) : Except Src FloatVal :=
  match s with
  | [] => .error emptyFloatMsg
  | c :: _ =>
    let negative := decide (c = '-')
    let s' := if c = '-' ∨ c = '+' then s.tail else s
    if s' = [] then .error invalidFloatMsg
    else
      match parseNumber s' negative with
      | some v => .ok v
      | none =>
        match parseSpecial s' negative with
        | some v => .ok v
        | none => .error invalidFloatMsg

/-- Rust `node::double`: trim, parse as `f64`, wrap failures in
`ParseError("failed to parse as f64: {e}")` at the node's span. -/
def double (n : Node) : Except Error FloatVal :=
  let content := trim n.raw
  match dec2flt content with
  | .ok v => .ok v
  | .error m => .error ⟨.parseError ("failed to parse as f64: ".toList ++ m), n.span⟩

/-! ## Navigator: balanced scan, table, vector (src/node.rs) -/

/-- Rust `node::parse_balanced`, scanning past a nested value: one depth
counter shared by braces and brackets.  The Rust function is a
`while depth > 0` loop; it is entered only with `depth >= 1`, and when
`depth` reaches zero the iteration that decremented it has just set
`last_span` to the current token's span, so the `Ok(last_span)` returned
after the loop equals the current token's span.  Both exits are therefore
written inline below; the two identical branches of the innermost `if`
mirror the Rust code's `depth == 0 && tok.kind == closing` early return and
its loop-exit fallthrough, which return the same span.  The function also
returns the advanced lexer state (`&mut Lexer` in Rust). -/
def parseBalancedF : Nat → TokenKind → Nat → Src → Nat → Except Error (Span × Nat × Src)
  | 0, _, pos, _, _ => .error ⟨.unexpectedEof, ⟨pos, 0⟩⟩
  | fuel + 1, closing, pos, rem, depth =>
    match nextTok pos rem with
    | .error e => .error e
    | .ok (tok, pos', rem') =>
      match tok.kind with
      | .leftBrace | .leftBracket =>
        parseBalancedF fuel closing pos' rem' (depth + 1)
      | .rightBrace | .rightBracket =>
        if depth - 1 = 0 then
          if tok.kind = closing then .ok (tok.span, pos', rem')
          else .ok (tok.span, pos', rem')
        else parseBalancedF fuel closing pos' rem' (depth - 1)
      | .eof => .error ⟨.unexpectedEof, tok.span⟩
      | _ => parseBalancedF fuel closing pos' rem' depth

/-- `parse_balanced` with its initial depth 1 and sufficient fuel. -/
def parseBalanced (closing : TokenKind) (pos : Nat) (rem : Src) :
    Except Error (Span × Nat × Src) :=
  parseBalancedF (rem.length + 1) closing pos rem 1

/-- The delimiter-skipping loop shared by `node::table` and `node::vector`:
skip `Newline`/`Comma` tokens, erroring on two commas with no intervening
newline (`ErrorKind::ConsecutiveDelimiters`). -/
def skipDelimsF : Nat → Nat → Src → Bool → Except Error (Token × Nat × Src)
  | 0, pos, _, _ => .error ⟨.unexpectedEof, ⟨pos, 0⟩⟩
  | fuel + 1, pos, rem, sawComma =>
    match nextTok pos rem with
    | .error e => .error e
    | .ok (tok, pos', rem') =>
      if tok.kind = .comma then
        if sawComma then .error ⟨.consecutiveDelimiters, tok.span⟩
        else skipDelimsF fuel pos' rem' true
      else if tok.kind = .newline then skipDelimsF fuel pos' rem' false
      else .ok (tok, pos', rem')

/-- `HashMap::insert`: last write wins on duplicate keys. -/
def insertKV (m : List (Src × Node)) (k : Src) (v : Node) : List (Src × Node) :=
  (m.filter fun p => !(p.1 == k)) ++ [(k, v)]

/-- The key-value loop of `node::table`. -/
def tableLoopF (source : Src) : Nat → Nat → Src → List (Src × Node) →
    Except Error (List (Src × Node))
  | 0, pos, _, _ => .error ⟨.unexpectedEof, ⟨pos, 0⟩⟩
  | fuel + 1, pos, rem, result =>
    match skipDelimsF (rem.length + 1) pos rem false with
    | .error e => .error e
    | .ok (tok, pos, rem) =>
      if tok.kind = .rightBrace then .ok result
      else
        match
          (if tok.kind = .string then (text ⟨source, tok.span⟩).map Cow.list
           else if tok.kind = .scalar then .ok (tok.span.extract source)
           else .error ⟨.expectedChar ':', tok.span⟩ : Except Error Src)
        with
        | .error e => .error e
        | .ok keyText =>
          match nextTok pos rem with
          | .error e => .error e
          | .ok (tok, pos, rem) =>
            if ¬ tok.kind = .colon then .error ⟨.expectedChar ':', tok.span⟩
            else
              match nextTok pos rem with
              | .error e => .error e
              | .ok (tok, pos, rem) =>
                let valueStart := tok.span
                match
                  (match tok.kind with
                   | .leftBrace => parseBalanced .rightBrace pos rem
                   | .leftBracket => parseBalanced .rightBracket pos rem
                   | .string | .scalar => .ok (tok.span, pos, rem)
                   | _ => .error ⟨.unexpectedChar
                            ((valueStart.extract source).head?.getD ' '), valueStart⟩ :
                    Except Error (Span × Nat × Src))
                with
                | .error e => .error e
                | .ok (valueEnd, pos, rem) =>
                  let valueSpan : Span := ⟨valueStart.start, valueEnd.stop - valueStart.start⟩
                  tableLoopF source fuel pos rem
                    (insertKV result keyText ⟨source, valueSpan⟩)

/-- Rust `node::table`. -/
def table (n : Node) : Except Error (List (Src × Node)) :=
  let content := trim n.raw
  if ¬ content.head? = some '\x7b' then .error ⟨.notATable, n.span⟩
  else
    match nextTok n.span.start (n.source.drop n.span.start) with
    | .error e => .error e
    | .ok (tok, pos, rem) =>
      if ¬ tok.kind = .leftBrace then .error ⟨.notATable, n.span⟩
      else tableLoopF n.source (rem.length + 1) pos rem []

/-- The element loop of `node::vector`. -/
def vectorLoopF (source : Src) : Nat → Nat → Src → List Node → Except Error (List Node)
  | 0, pos, _, _ => .error ⟨.unexpectedEof, ⟨pos, 0⟩⟩
  | fuel + 1, pos, rem, result =>
    match skipDelimsF (rem.length + 1) pos rem false with
    | .error e => .error e
    | .ok (tok, pos, rem) =>
      if tok.kind = .rightBracket then .ok result
      else
        let elemStart := tok.span
        match
          (match tok.kind with
           | .leftBrace => parseBalanced .rightBrace pos rem
           | .leftBracket => parseBalanced .rightBracket pos rem
           | .string | .scalar => .ok (tok.span, pos, rem)
           | _ => .error ⟨.unexpectedChar
                    ((elemStart.extract source).head?.getD ' '), elemStart⟩ :
            Except Error (Span × Nat × Src))
        with
        | .error e => .error e
        | .ok (elemEnd, pos, rem) =>
          let elemSpan : Span := ⟨elemStart.start, elemEnd.stop - elemStart.start⟩
          vectorLoopF source fuel pos rem (result ++ [⟨source, elemSpan⟩])

/-- Rust `node::vector`. -/
def vector (n : Node) : Except Error (List Node) :=
  let content := trim n.raw
  if ¬ content.head? = some '[' then .error ⟨.notAVector, n.span⟩
  else
    match nextTok n.span.start (n.source.drop n.span.start) with
    | .error e => .error e
    | .ok (tok, pos, rem) =>
      if ¬ tok.kind = .leftBracket then .error ⟨.notAVector, n.span⟩
      else vectorLoopF n.source (rem.length + 1) pos rem []

/-- Convenience: the root node of a source string, for concrete evaluation. -/
def rootNode (s : String) : Node := ⟨s.toList, ⟨0, s.toList.length⟩⟩

/-! ## Spec-side definitions

These definitions follow the wording of the specification (not the code) and
are compared with the embedded code in refinement-style theorems. -/

/-- Helper for reasoning about the `from_str_radix` digit loop: the value of
a digit list folded onto an accumulator. -/
def natFrom (acc : Nat) (ds : Src) : Nat :=
  ds.foldl (fun a c => a * 10 + (c.toNat - '0'.toNat)) acc

/-- Spec-side value of a nonempty all-digit string that fits in 64 unsigned
bits; `none` otherwise. -/
def specDigits (ds : Src) : Option Nat :=
  if ¬ ds = [] ∧ ds.all isDigitCh = true ∧ natFrom 0 ds ≤ u64Max then some (natFrom 0 ds)
  else none

/-- Spec-side characterization of `uint64` (amended): the trimmed content is
an optional single leading `+` followed by a nonempty string of decimal
digits whose value fits in 64 unsigned bits. -/
def specUint64 (content : Src) : Option Nat :=
  specDigits (if content.head? = some '+' then content.tail else content)

/-- A character list with no occurrence of the two-character sequence `*#`
(so a block comment body that does not close early). -/
def noStarHash : Src → Bool
  | [] => true
  | c :: rest => if c = '*' ∧ rest.head? = some '#' then false else noStarHash rest

/-- Spec-side grammar of trivial sources: only whitespace, newlines, and
well-formed comments (line comments ending in a newline or at end of input;
block comments `#* ... *#`).  A line comment is `#` not followed by `*`;
its body extends to the newline.  `document` succeeds on exactly these with
an empty span (claim C4). -/
inductive Trivia : Src → Prop where
  | nil : Trivia []
  | ws (c : Char) (t : Src) (hc : isLexWs c = true) (ht : Trivia t) : Trivia (c :: t)
  | nl (t : Src) (ht : Trivia t) : Trivia ('\n' :: t)
  | lineNl (body t : Src) (hb : '\n' ∉ body) (hs : ¬ (body ++ '\n' :: t).head? = some '*')
      (ht : Trivia t) : Trivia ('#' :: (body ++ '\n' :: t))
  | lineEof (body : Src) (hb : '\n' ∉ body) (hs : ¬ body.head? = some '*') :
      Trivia ('#' :: body)
  | block (body t : Src) (hb : noStarHash body = true) (ht : Trivia t) :
      Trivia ('#' :: '*' :: (body ++ '*' :: '#' :: t))

/-! ## Helper lemmas -/

theorem dropWhile_eq_self_of_head (p : Char → Bool) (l : Src)
    (h : ∀ c, l.head? = some c → p c = false) : l.dropWhile p = l := by
  cases l with
  | nil => rfl
  | cons a t => simp [List.dropWhile_cons, h a rfl]

theorem trim_eq_self (l : Src) (h1 : ∀ c, l.head? = some c → isRustWs c = false)
    (h2 : ∀ c, l.getLast? = some c → isRustWs c = false) : trim l = l := by
  unfold trim
  rw [dropWhile_eq_self_of_head _ _ h1,
    dropWhile_eq_self_of_head _ _ (fun c hc => h2 c (by rwa [List.head?_reverse] at hc)),
    List.reverse_reverse]

theorem natFrom_cons (acc : Nat) (c : Char) (ds : Src) :
    natFrom acc (c :: ds) = natFrom (acc * 10 + (c.toNat - '0'.toNat)) ds := rfl

theorem natFrom_le (ds : Src) : ∀ acc, acc ≤ natFrom acc ds := by
  induction ds with
  | nil => intro acc; exact Nat.le_refl acc
  | cons c t ih =>
    intro acc
    rw [natFrom_cons]
    exact le_trans (by omega) (ih (acc * 10 + (c.toNat - '0'.toNat)))

/-- Variant of `natFrom_cons` with the digit value fully evaluated, matching
simp-normalized goals. -/
theorem natFrom_cons48 (acc : Nat) (c : Char) (ds : Src) :
    natFrom acc (c :: ds) = natFrom (acc * 10 + (c.toNat - 48)) ds := rfl

/-- Unfolding lemma for `specDigits` at `some`. -/
theorem specDigits_some (ds : Src) (v : Nat) :
    specDigits ds = some v ↔
      (¬ ds = [] ∧ ds.all isDigitCh = true ∧ natFrom 0 ds ≤ u64Max ∧ natFrom 0 ds = v) := by
  unfold specDigits
  split_ifs with h
  · simp only [Option.some.injEq]
    exact ⟨fun hv => ⟨h.1, h.2.1, h.2.2, hv⟩, fun hv => hv.2.2.2⟩
  · constructor
    · intro hv; exact absurd hv (by simp)
    · intro hv; exact absurd ⟨hv.1, hv.2.1, hv.2.2.1⟩ h

/-- The checked digit loop succeeds exactly when every character is a digit
and the accumulated value stays within the unsigned 64-bit range. -/
theorem fromStrRadixLoop_ok_iff (ds : Src) : ∀ acc v, acc ≤ u64Max →
    (fromStrRadixLoop ds acc = .ok v ↔
      (ds.all isDigitCh = true ∧ natFrom acc ds = v ∧ natFrom acc ds ≤ u64Max)) := by
  induction ds with
  | nil =>
    intro acc v hacc
    simp [fromStrRadixLoop, natFrom, hacc]
  | cons c t ih =>
    intro acc v hacc
    by_cases hd : isDigitCh c = true
    · have hcd : charToDigit c = some (c.toNat - '0'.toNat) := by
        simp [charToDigit, hd]
      simp only [fromStrRadixLoop, hcd]
      split_ifs with h1 h2
      · have hbig : u64Max < natFrom acc (c :: t) := by
          rw [natFrom_cons]
          exact lt_of_lt_of_le (by omega) (natFrom_le t _)
        simp [Nat.not_le.mpr hbig]
      · have hbig : u64Max < natFrom acc (c :: t) := by
          rw [natFrom_cons]
          exact lt_of_lt_of_le (by omega) (natFrom_le t _)
        simp [Nat.not_le.mpr hbig]
      · rw [ih (acc * 10 + (c.toNat - '0'.toNat)) v (by omega), natFrom_cons]
        simp [List.all_cons, hd]
    · have hcd : charToDigit c = none := by simp [charToDigit, hd]
      simp [fromStrRadixLoop, hcd, List.all_cons, hd]

/-- Rust `u64::from_str` succeeds exactly on the spec-side grammar. -/
theorem fromStrRadixU64_ok_iff (content : Src) (v : Nat) :
    fromStrRadixU64 content = .ok v ↔ specUint64 content = some v := by
  cases content with
  | nil => simp [fromStrRadixU64, specUint64, specDigits]
  | cons c rest =>
    by_cases hsign : (c = '+' ∨ c = '-') ∧ rest = []
    · obtain ⟨hc, hrest⟩ := hsign
      subst hrest
      have hstep : fromStrRadixU64 [c] = .error invalidDigitMsg := by
        simp [fromStrRadixU64, hc]
      rw [hstep]
      rcases hc with hc | hc <;> subst hc
      · have hspec : specUint64 ['+'] = specDigits [] := by simp [specUint64]
        rw [hspec]
        simp [specDigits]
      · have hspec : specUint64 ['-'] = specDigits ['-'] := by simp [specUint64]
        rw [hspec]
        have hdm : isDigitCh '-' = false := by decide
        simp [specDigits, hdm]
    · by_cases hplus : c = '+'
      · subst hplus
        have hrest : ¬ rest = [] := fun h => hsign ⟨Or.inl rfl, h⟩
        have hstep : fromStrRadixU64 ('+' :: rest) = fromStrRadixLoop rest 0 := by
          simp [fromStrRadixU64, hrest]
        have hspec : specUint64 ('+' :: rest) = specDigits rest := by simp [specUint64]
        rw [hstep, hspec, fromStrRadixLoop_ok_iff rest 0 v (Nat.zero_le _), specDigits_some]
        exact ⟨fun ⟨a, b, cle⟩ => ⟨hrest, a, cle, b⟩, fun ⟨_, a, cle, b⟩ => ⟨a, b, cle⟩⟩
      · by_cases hminus : c = '-'
        · subst hminus
          have hstep : fromStrRadixU64 ('-' :: rest) = .error invalidDigitMsg := by
            simp [fromStrRadixU64, hsign]
          have hspec : specUint64 ('-' :: rest) = specDigits ('-' :: rest) := by
            simp [specUint64]
          have hdm : isDigitCh '-' = false := by decide
          rw [hstep, hspec]
          simp [specDigits, List.all_cons, hdm]
        · have hstep : fromStrRadixU64 (c :: rest) = fromStrRadixLoop (c :: rest) 0 := by
            simp [fromStrRadixU64, hsign, hplus, hminus]
          have hspec : specUint64 (c :: rest) = specDigits (c :: rest) := by
            simp [specUint64, hplus]
          rw [hstep, hspec, fromStrRadixLoop_ok_iff (c :: rest) 0 v (Nat.zero_le _),
            specDigits_some]
          constructor
          · intro ⟨a, b, cle⟩; exact ⟨by simp, a, cle, b⟩
          · intro ⟨_, a, cle, b⟩; exact ⟨a, b, cle⟩

/-! ## Lexer metatheory: lengths, error kinds, progress -/

theorem skipWhitespace_len (rem : Src) : ∀ pos, (skipWhitespace pos rem).2.length ≤ rem.length := by
  induction rem with
  | nil => intro pos; simp [skipWhitespace]
  | cons c rest ih =>
    intro pos
    simp only [skipWhitespace]
    by_cases h : isLexWs c = true
    · rw [if_pos h]
      exact le_trans (ih (pos + 1)) (by simp)
    · rw [if_neg h]

theorem skipWhitespace_head (rem : Src) :
    ∀ pos c rest, (skipWhitespace pos rem).2 = c :: rest → isLexWs c = false := by
  induction rem with
  | nil => intro pos c rest h; simp [skipWhitespace] at h
  | cons a t ih =>
    intro pos c rest h
    simp only [skipWhitespace] at h
    by_cases ha : isLexWs a = true
    · rw [if_pos ha] at h
      exact ih (pos + 1) c rest h
    · rw [if_neg ha] at h
      cases h
      simpa using ha

theorem lineLoop_len (rem : Src) : ∀ pos, (lineLoop pos rem).2.length ≤ rem.length := by
  induction rem with
  | nil => intro pos; simp [lineLoop]
  | cons c rest ih =>
    intro pos
    simp only [lineLoop]
    by_cases h : c = '\n'
    · rw [if_pos h]
      simp
    · rw [if_neg h]
      exact le_trans (ih (pos + 1)) (by simp)

theorem skipLineComment_len (c : Char) (rest : Src) (pos : Nat) :
    (skipLineComment pos (c :: rest)).2.length < (c :: rest).length := by
  simp only [skipLineComment]
  exact lt_of_le_of_lt (lineLoop_len rest (pos + 1)) (by simp)

theorem blockLoop_error_kind (start : Nat) (rem : Src) :
    ∀ pos e, blockLoop start pos rem = .error e → e.kind = .unclosedComment := by
  induction rem with
  | nil =>
    intro pos e h
    simp only [blockLoop, Except.error.injEq] at h
    rw [← h]
  | cons c rest ih =>
    intro pos e h
    simp only [blockLoop] at h
    split_ifs at h with hc
    exact ih (pos + 1) e h

theorem blockLoop_ok_len (start : Nat) (rem : Src) :
    ∀ pos p r, blockLoop start pos rem = .ok (p, r) → r.length ≤ rem.length := by
  induction rem with
  | nil => intro pos p r h; simp [blockLoop] at h
  | cons c rest ih =>
    intro pos p r h
    simp only [blockLoop] at h
    split_ifs at h with hc
    · simp only [Except.ok.injEq, Prod.mk.injEq] at h
      rw [← h.2]
      have := List.length_tail rest
      simp only [List.length_cons]
      omega
    · exact le_trans (ih (pos + 1) p r h) (by simp)

theorem scalarLoop_len (rem : Src) : ∀ pos, (scalarLoop pos rem).2.length ≤ rem.length := by
  induction rem with
  | nil => intro pos; simp [scalarLoop]
  | cons c rest ih =>
    intro pos
    simp only [scalarLoop]
    by_cases h : isScalarStop c rest = true
    · rw [if_pos h]
    · rw [if_neg h]
      exact le_trans (ih (pos + 1)) (by simp)

theorem stringLoop_cases (start : Nat) (n : Nat) : ∀ rem : Src, rem.length ≤ n → ∀ pos,
    (∀ e, stringLoop start pos rem = .error e → e.kind = .unclosedString) ∧
    (∀ tok pos' rem', stringLoop start pos rem = .ok (tok, pos', rem') →
      rem'.length ≤ rem.length) := by
  induction n with
  | zero =>
    intro rem hlen pos
    have hnil : rem = [] := List.length_eq_zero.mp (Nat.le_zero.mp hlen)
    subst hnil
    constructor
    · intro e h
      simp only [stringLoop, Except.error.injEq] at h
      rw [← h]
    · intro tok pos' rem' h
      simp [stringLoop] at h
  | succ m ih =>
    intro rem hlen pos
    constructor
    · intro e h
      rw [stringLoop.eq_def] at h
      split at h
      · simp only [Except.error.injEq] at h
        rw [← h]
      · rename_i c rest
        split_ifs at h with h1 h2
        · cases rest with
          | nil =>
            simp only [Except.error.injEq] at h
            rw [← h]
          | cons d rest' =>
            exact (ih rest' (by simp only [List.length_cons] at hlen; omega) (pos + 2)).1 e h
        · exact (ih rest (by simp only [List.length_cons] at hlen; omega) (pos + 1)).1 e h
    · intro tok pos' rem' h
      rw [stringLoop.eq_def] at h
      split at h
      · exact absurd h (by simp)
      · rename_i c rest
        split_ifs at h with h1 h2
        · simp only [Except.ok.injEq, Prod.mk.injEq] at h
          rw [← h.2.2]
          simp
        · cases rest with
          | nil => exact absurd h (by simp)
          | cons d rest' =>
            have := (ih rest' (by simp only [List.length_cons] at hlen; omega) (pos + 2)).2
              tok pos' rem' h
            simp only [List.length_cons]
            omega
        · exact le_trans
            ((ih rest (by simp only [List.length_cons] at hlen; omega) (pos + 1)).2
              tok pos' rem' h)
            (by simp)

set_option maxHeartbeats 2000000 in
/-- Every error produced by `next_token` is a lexical error or (for the
unreachable fuel sentinel) `UnexpectedEof`. -/
theorem nextTokenF_error_kind : ∀ fuel pos rem e, nextTokenF fuel pos rem = .error e →
    e.kind = .unexpectedEof ∨ e.kind = .unclosedString ∨ e.kind = .unclosedComment := by
  intro fuel
  induction fuel with
  | zero =>
    intro pos rem e h
    simp only [nextTokenF, Except.error.injEq] at h
    rw [← h]
    left
    rfl
  | succ f ih =>
    intro pos rem e h
    simp only [nextTokenF] at h
    split at h
    · exact absurd h (by simp)
    · rename_i c rest heq
      split_ifs at h with h1 h2 h3 h4 h5 h6 h7 h8 h9 h10
      · -- string
        simp only [lexString] at h
        right
        left
        exact (stringLoop_cases _ rest.length rest le_rfl _).1 e h
      · -- block comment
        split at h
        · rename_i e' hb
          simp only [Except.error.injEq] at h
          rw [← h]
          right
          right
          exact blockLoop_error_kind _ _ _ e' hb
        · exact ih _ _ e h
      · -- line comment
        exact ih _ _ e h

set_option maxHeartbeats 4000000 in
/-- With fuel exceeding the remaining length, every `next_token` error is a
lexical error (the fuel sentinel is unreachable). -/
theorem nextTokenF_error_kind_strong : ∀ fuel pos rem, rem.length < fuel → ∀ e,
    nextTokenF fuel pos rem = .error e →
    e.kind = .unclosedString ∨ e.kind = .unclosedComment := by
  intro fuel
  induction fuel with
  | zero => intro pos rem hf e h; exact absurd hf (by omega)
  | succ f ih =>
    intro pos rem hf e h
    simp only [nextTokenF] at h
    split at h
    · exact absurd h (by simp)
    · rename_i c rest heq
      have hlen1 : (c :: rest).length ≤ rem.length := by
        rw [← heq]
        exact skipWhitespace_len rem pos
      simp only [List.length_cons] at hlen1
      split_ifs at h with h1 h2 h3 h4 h5 h6 h7 h8 h9 h10
      · left
        simp only [lexString] at h
        exact (stringLoop_cases _ rest.length rest le_rfl _).1 e h
      · split at h
        · rename_i e' hb
          simp only [Except.error.injEq] at h
          rw [← h]
          right
          exact blockLoop_error_kind _ _ _ e' hb
        · rename_i s' hb
          obtain ⟨p2, r2⟩ := s'
          simp only [skipBlockComment] at hb
          have hr2 := blockLoop_ok_len _ _ _ _ _ hb
          have hd : ((c :: rest).drop 2).length ≤ rest.length := by
            simp only [List.length_drop, List.length_cons]
            omega
          exact ih _ r2 (by omega) e h
      · have hlt := skipLineComment_len c rest ((skipWhitespace pos rem).1)
        simp only [List.length_cons] at hlt
        exact ih _ _ (by omega) e h

set_option maxHeartbeats 4000000 in
/-- `next_token` consumes input: the remaining list never grows, and it
strictly shrinks unless the returned token is `Eof`. -/
theorem nextTokenF_progress : ∀ fuel pos rem tok pos' rem',
    nextTokenF fuel pos rem = .ok (tok, pos', rem') →
    rem'.length ≤ rem.length ∧ (¬ tok.kind = .eof → rem'.length < rem.length) := by
  intro fuel
  induction fuel with
  | zero => intro pos rem tok pos' rem' h; simp [nextTokenF] at h
  | succ f ih =>
    intro pos rem tok pos' rem' h
    simp only [nextTokenF] at h
    split at h
    · rename_i heq
      simp only [Except.ok.injEq, Prod.mk.injEq] at h
      obtain ⟨htok, _, hrem⟩ := h
      constructor
      · rw [← hrem]
        simp
      · intro hk
        rw [← htok] at hk
        simp at hk
    · rename_i c rest heq
      have hlen1 : (c :: rest).length ≤ rem.length := by
        rw [← heq]
        exact skipWhitespace_len rem pos
      simp only [List.length_cons] at hlen1
      have hws := skipWhitespace_head rem pos c rest heq
      split_ifs at h with h1 h2 h3 h4 h5 h6 h7 h8 h9 h10
      · simp only [Except.ok.injEq, Prod.mk.injEq] at h
        obtain ⟨htok, _, hrem⟩ := h
        rw [← hrem]
        exact ⟨by omega, fun _ => by omega⟩
      · simp only [Except.ok.injEq, Prod.mk.injEq] at h
        obtain ⟨htok, _, hrem⟩ := h
        rw [← hrem]
        exact ⟨by omega, fun _ => by omega⟩
      · simp only [Except.ok.injEq, Prod.mk.injEq] at h
        obtain ⟨htok, _, hrem⟩ := h
        rw [← hrem]
        exact ⟨by omega, fun _ => by omega⟩
      · simp only [Except.ok.injEq, Prod.mk.injEq] at h
        obtain ⟨htok, _, hrem⟩ := h
        rw [← hrem]
        exact ⟨by omega, fun _ => by omega⟩
      · simp only [Except.ok.injEq, Prod.mk.injEq] at h
        obtain ⟨htok, _, hrem⟩ := h
        rw [← hrem]
        exact ⟨by omega, fun _ => by omega⟩
      · simp only [Except.ok.injEq, Prod.mk.injEq] at h
        obtain ⟨htok, _, hrem⟩ := h
        rw [← hrem]
        exact ⟨by omega, fun _ => by omega⟩
      · simp only [Except.ok.injEq, Prod.mk.injEq] at h
        obtain ⟨htok, _, hrem⟩ := h
        rw [← hrem]
        exact ⟨by omega, fun _ => by omega⟩
      · simp only [lexString] at h
        have hs := (stringLoop_cases _ rest.length rest le_rfl _).2 tok pos' rem' h
        exact ⟨by omega, fun _ => by omega⟩
      · split at h
        · exact absurd h (by simp)
        · rename_i s' hb
          obtain ⟨p2, r2⟩ := s'
          dsimp only at h
          simp only [skipBlockComment] at hb
          have hr2 := blockLoop_ok_len _ _ _ _ _ hb
          have hd : ((c :: rest).drop 2).length ≤ rest.length := by
            simp only [List.length_drop, List.length_cons]
            omega
          have hrec := (ih _ _ _ _ _ h).1
          exact ⟨by omega, fun _ => by omega⟩
      · have hlt := skipLineComment_len c rest ((skipWhitespace pos rem).1)
        simp only [List.length_cons] at hlt
        have hrec := (ih _ _ _ _ _ h).1
        exact ⟨by omega, fun _ => by omega⟩
      · have hsp : ¬ c = ' ' := by
          intro hcc
          rw [hcc] at hws
          simp [isLexWs] at hws
        have hta : ¬ c = '\t' := by
          intro hcc
          rw [hcc] at hws
          simp [isLexWs] at hws
        have hcr : ¬ c = '\r' := by
          intro hcc
          rw [hcc] at hws
          simp [isLexWs] at hws
        have hstop : isScalarStop c rest = false := by
          simp [isScalarStop, h1, h2, h3, h4, h5, h6, h7, h9, hsp, hta, hcr]
        simp only [lexScalar] at h
        simp only [Except.ok.injEq, Prod.mk.injEq] at h
        obtain ⟨htok, _, hrem⟩ := h
        have hsl2 : (scalarLoop ((skipWhitespace pos rem).1) (c :: rest)).2
            = (scalarLoop ((skipWhitespace pos rem).1 + 1) rest).2 := by
          simp only [scalarLoop]
          rw [if_neg (by simp [hstop])]
        have hsl := scalarLoop_len rest ((skipWhitespace pos rem).1 + 1)
        rw [← hrem, hsl2]
        exact ⟨by omega, fun _ => by omega⟩

/-- With sufficient fuel, every error of the leading-newline skip of
`document` is a lexical error. -/
theorem skipNewlinesF_error_kind : ∀ fuel pos rem, rem.length < fuel → ∀ e,
    skipNewlinesF fuel pos rem = .error e →
    e.kind = .unclosedString ∨ e.kind = .unclosedComment := by
  intro fuel
  induction fuel with
  | zero => intro pos rem hf e h; exact absurd hf (by omega)
  | succ f ih =>
    intro pos rem hf e h
    cases hn : nextTok pos rem with
    | error e' =>
      simp only [skipNewlinesF, hn, Except.error.injEq] at h
      rw [← h]
      exact nextTokenF_error_kind_strong (rem.length + 1) pos rem (by omega) e' hn
    | ok t =>
      obtain ⟨tok, pos', rem'⟩ := t
      simp only [skipNewlinesF, hn] at h
      split_ifs at h with hk
      have hp := (nextTokenF_progress (rem.length + 1) pos rem tok pos' rem' hn).2
        (by rw [hk]; simp)
      exact ih pos' rem' (by omega) e h

/-- With sufficient fuel, every error of `document`'s scan-to-end loop is a
lexical error. -/
theorem docLoopF_error_kind : ∀ fuel pos rem sp, rem.length < fuel → ∀ e,
    docLoopF fuel pos rem sp = .error e →
    e.kind = .unclosedString ∨ e.kind = .unclosedComment := by
  intro fuel
  induction fuel with
  | zero => intro pos rem sp hf e h; exact absurd hf (by omega)
  | succ f ih =>
    intro pos rem sp hf e h
    cases hn : nextTok pos rem with
    | error e' =>
      simp only [docLoopF, hn, Except.error.injEq] at h
      rw [← h]
      exact nextTokenF_error_kind_strong (rem.length + 1) pos rem (by omega) e' hn
    | ok t =>
      obtain ⟨tok, pos', rem'⟩ := t
      simp only [docLoopF, hn] at h
      split_ifs at h with hk hk2
      all_goals
        have hp := (nextTokenF_progress (rem.length + 1) pos rem tok pos' rem' hn).2 hk
        exact ih pos' rem' _ (by omega) e h

/-! ## Trivia sources (claim C4) -/

theorem lineLoop_append : ∀ (body : Src) (pos : Nat) (t : Src), '\n' ∉ body →
    lineLoop pos (body ++ '\n' :: t) = (pos + body.length + 1, t) := by
  intro body
  induction body with
  | nil => intro pos t _; simp [lineLoop]
  | cons c bs ih =>
    intro pos t hb
    have hc : ¬ c = '\n' := fun hcc => hb (by rw [hcc]; exact List.mem_cons_self _ _)
    have hbs : '\n' ∉ bs := fun hm => hb (List.mem_cons_of_mem c hm)
    simp only [List.cons_append, lineLoop, if_neg hc, List.append_eq]
    rw [ih (pos + 1) t hbs]
    simp only [Prod.mk.injEq, List.length_cons, and_true]
    omega

theorem lineLoop_noNl : ∀ (body : Src) (pos : Nat), '\n' ∉ body →
    lineLoop pos body = (pos + body.length, []) := by
  intro body
  induction body with
  | nil => intro pos _; simp [lineLoop]
  | cons c bs ih =>
    intro pos hb
    have hc : ¬ c = '\n' := fun hcc => hb (by rw [hcc]; exact List.mem_cons_self _ _)
    have hbs : '\n' ∉ bs := fun hm => hb (List.mem_cons_of_mem c hm)
    simp only [lineLoop, if_neg hc]
    rw [ih (pos + 1) hbs]
    simp only [Prod.mk.injEq, List.length_cons, and_true]
    omega

theorem blockLoop_append : ∀ (body : Src) (start pos : Nat) (t : Src), noStarHash body = true →
    blockLoop start pos (body ++ '*' :: '#' :: t) = .ok (pos + body.length + 2, t) := by
  intro body
  induction body with
  | nil => intro start pos t _; simp [blockLoop]
  | cons c bs ih =>
    intro start pos t hb
    have hsplit : ¬ (c = '*' ∧ bs.head? = some '#') ∧ noStarHash bs = true := by
      by_cases hcc : c = '*' ∧ bs.head? = some '#'
      · simp only [noStarHash, if_pos hcc] at hb
        exact absurd hb (by simp)
      · simp only [noStarHash, if_neg hcc] at hb
        exact ⟨hcc, hb⟩
    have hcond : ¬ (c = '*' ∧ (bs ++ '*' :: '#' :: t).head? = some '#') := by
      cases bs with
      | nil =>
        rintro ⟨hc, hh⟩
        simp at hh
      | cons d ds =>
        rintro ⟨hc, hh⟩
        simp only [List.cons_append, List.head?_cons] at hh
        exact hsplit.1 ⟨hc, by rw [List.head?_cons]; exact hh⟩
    simp only [List.cons_append, blockLoop, if_neg hcond, List.append_eq]
    rw [ih start (pos + 1) t hsplit.2]
    simp only [Except.ok.injEq, Prod.mk.injEq, List.length_cons, and_true]
    omega

theorem nextTokenF_nil (f pos : Nat) :
    nextTokenF (f + 1) pos [] = .ok (⟨.eof, ⟨pos, 0⟩⟩, pos, []) := by
  simp [nextTokenF, skipWhitespace]

theorem nextTokenF_nl (f pos : Nat) (t : Src) :
    nextTokenF (f + 1) pos ('\n' :: t) = .ok (⟨.newline, ⟨pos, 1⟩⟩, pos + 1, t) := by
  simp [nextTokenF, skipWhitespace, isLexWs]

theorem nextTokenF_ws_step (f pos : Nat) (c : Char) (t : Src) (hc : isLexWs c = true) :
    nextTokenF (f + 1) pos (c :: t) = nextTokenF (f + 1) (pos + 1) t := by
  simp only [nextTokenF, skipWhitespace, hc, if_true]

theorem nextTokenF_line (f pos : Nat) (L : Src) (hs : ¬ L.head? = some '*') :
    nextTokenF (f + 1) pos ('#' :: L)
      = nextTokenF f (lineLoop (pos + 1) L).1 (lineLoop (pos + 1) L).2 := by
  simp [nextTokenF, skipWhitespace, isLexWs, hs, skipLineComment]

theorem nextTokenF_block (f pos : Nat) (B : Src) :
    nextTokenF (f + 1) pos ('#' :: '*' :: B)
      = match blockLoop pos (pos + 2) B with
        | .error e => .error e
        | .ok s' => nextTokenF f s'.1 s'.2 := by
  simp [nextTokenF, skipWhitespace, isLexWs, skipBlockComment]

/-- On a trivia source, `next_token` returns either the `Eof` token at the
end of the input or a `Newline` token followed by a (shorter) trivia
suffix. -/
theorem trivia_nextTok {rem : Src} (ht : Trivia rem) : ∀ pos fuel, rem.length < fuel →
    nextTokenF fuel pos rem = .ok (⟨.eof, ⟨pos + rem.length, 0⟩⟩, pos + rem.length, []) ∨
    ∃ k, k + 1 ≤ rem.length ∧
      nextTokenF fuel pos rem = .ok (⟨.newline, ⟨pos + k, 1⟩⟩, pos + k + 1, rem.drop (k + 1)) ∧
      Trivia (rem.drop (k + 1)) := by
  induction ht with
  | nil =>
    intro pos fuel hf
    obtain ⟨f, rfl⟩ : ∃ f, fuel = f + 1 := ⟨fuel - 1, by omega⟩
    left
    rw [nextTokenF_nil]
    simp
  | ws c t hc ht' ih =>
    intro pos fuel hf
    obtain ⟨f, rfl⟩ : ∃ f, fuel = f + 1 := ⟨fuel - 1, by omega⟩
    rw [nextTokenF_ws_step f pos c t hc]
    rcases ih (pos + 1) (f + 1) (by simp only [List.length_cons] at hf ⊢; omega)
      with h | ⟨k, hk, h, htr⟩
    · left
      have ha : pos + 1 + t.length = pos + (c :: t).length := by
        simp only [List.length_cons]
        omega
      rw [ha] at h
      exact h
    · right
      refine ⟨k + 1, by simp only [List.length_cons]; omega, ?_, ?_⟩
      · have ha : pos + 1 + k = pos + (k + 1) := by omega
        rw [ha] at h
        rw [List.drop_succ_cons]
        exact h
      · rw [List.drop_succ_cons]
        exact htr
  | nl t ht' ih =>
    intro pos fuel hf
    obtain ⟨f, rfl⟩ : ∃ f, fuel = f + 1 := ⟨fuel - 1, by omega⟩
    right
    refine ⟨0, by simp, ?_, ?_⟩
    · rw [nextTokenF_nl]
      simp
    · simpa using ht'
  | lineNl body t hb hs ht' ih =>
    intro pos fuel hf
    obtain ⟨f, rfl⟩ : ∃ f, fuel = f + 1 := ⟨fuel - 1, by omega⟩
    rw [nextTokenF_line f pos _ hs, lineLoop_append body (pos + 1) t hb]
    have hlen : ('#' :: (body ++ '\n' :: t)).length = body.length + t.length + 2 := by
      simp only [List.length_cons, List.length_append, List.length_cons]
      omega
    rcases ih (pos + 1 + body.length + 1) f (by rw [hlen] at hf; omega)
      with h | ⟨k, hk, h, htr⟩
    · left
      have ha : pos + 1 + body.length + 1 + t.length
          = pos + ('#' :: (body ++ '\n' :: t)).length := by
        rw [hlen]
        omega
      rw [ha] at h
      exact h
    · right
      refine ⟨body.length + 2 + k, by rw [hlen]; omega, ?_, ?_⟩
      · have ha : pos + 1 + body.length + 1 + k = pos + (body.length + 2 + k) := by omega
        rw [ha] at h
        have hdrop : ('#' :: (body ++ '\n' :: t)).drop (body.length + 2 + k + 1)
            = t.drop (k + 1) := by
          have h1 : body.length + 2 + k + 1 = (body.length + 1) + (k + 1) + 1 := by omega
          rw [h1, List.drop_succ_cons,
            show (body ++ '\n' :: t : Src) = (body ++ ['\n']) ++ t by simp,
            show body.length + 1 = (body ++ ['\n']).length by simp,
            List.drop_append]
        rw [hdrop]
        exact h
      · have hdrop : ('#' :: (body ++ '\n' :: t)).drop (body.length + 2 + k + 1)
            = t.drop (k + 1) := by
          have h1 : body.length + 2 + k + 1 = (body.length + 1) + (k + 1) + 1 := by omega
          rw [h1, List.drop_succ_cons,
            show (body ++ '\n' :: t : Src) = (body ++ ['\n']) ++ t by simp,
            show body.length + 1 = (body ++ ['\n']).length by simp,
            List.drop_append]
        rw [hdrop]
        exact htr
  | lineEof body hb hs =>
    intro pos fuel hf
    obtain ⟨f, rfl⟩ : ∃ f, fuel = f + 1 := ⟨fuel - 1, by omega⟩
    left
    rw [nextTokenF_line f pos _ hs, lineLoop_noNl body (pos + 1) hb]
    obtain ⟨g, rfl⟩ : ∃ g, f = g + 1 := by
      refine ⟨f - 1, ?_⟩
      simp only [List.length_cons] at hf
      omega
    have ha : pos + 1 + body.length = pos + ('#' :: body).length := by
      simp only [List.length_cons]
      omega
    dsimp only
    rw [nextTokenF_nil, ha]
  | block body t hbns ht' ih =>
    intro pos fuel hf
    obtain ⟨f, rfl⟩ : ∃ f, fuel = f + 1 := ⟨fuel - 1, by omega⟩
    rw [nextTokenF_block f pos _, blockLoop_append body pos (pos + 2) t hbns]
    have hlen : ('#' :: '*' :: (body ++ '*' :: '#' :: t)).length
        = body.length + t.length + 4 := by
      simp only [List.length_cons, List.length_append, List.length_cons]
      omega
    rcases ih (pos + 2 + body.length + 2) f (by rw [hlen] at hf; omega)
      with h | ⟨k, hk, h, htr⟩
    · left
      have ha : pos + 2 + body.length + 2 + t.length
          = pos + ('#' :: '*' :: (body ++ '*' :: '#' :: t)).length := by
        rw [hlen]
        omega
      rw [ha] at h
      exact h
    · right
      refine ⟨body.length + 4 + k, by rw [hlen]; omega, ?_, ?_⟩
      · have ha : pos + 2 + body.length + 2 + k = pos + (body.length + 4 + k) := by omega
        rw [ha] at h
        have hdrop : ('#' :: '*' :: (body ++ '*' :: '#' :: t)).drop (body.length + 4 + k + 1)
            = t.drop (k + 1) := by
          have h1 : body.length + 4 + k + 1 = (body.length + 2) + (k + 1) + 1 + 1 := by omega
          rw [h1, List.drop_succ_cons, List.drop_succ_cons,
            show (body ++ '*' :: '#' :: t : Src) = (body ++ ['*', '#']) ++ t by simp,
            show body.length + 2 = (body ++ ['*', '#']).length by simp,
            List.drop_append]
        rw [hdrop]
        exact h
      · have hdrop : ('#' :: '*' :: (body ++ '*' :: '#' :: t)).drop (body.length + 4 + k + 1)
            = t.drop (k + 1) := by
          have h1 : body.length + 4 + k + 1 = (body.length + 2) + (k + 1) + 1 + 1 := by omega
          rw [h1, List.drop_succ_cons, List.drop_succ_cons,
            show (body ++ '*' :: '#' :: t : Src) = (body ++ ['*', '#']) ++ t by simp,
            show body.length + 2 = (body ++ ['*', '#']).length by simp,
            List.drop_append]
        rw [hdrop]
        exact htr

/-- On a trivia source, the leading-newline skip of `document` reaches the
`Eof` token at the end of the input. -/
theorem trivia_skipNewlines : ∀ (n : Nat) (rem : Src), rem.length ≤ n → Trivia rem →
    ∀ pos fuel, rem.length < fuel →
    skipNewlinesF fuel pos rem
      = .ok (⟨.eof, ⟨pos + rem.length, 0⟩⟩, pos + rem.length, []) := by
  intro n
  induction n with
  | zero =>
    intro rem hlen ht pos fuel hf
    have hnil : rem = [] := List.length_eq_zero.mp (Nat.le_zero.mp hlen)
    subst hnil
    obtain ⟨f, rfl⟩ : ∃ f, fuel = f + 1 := ⟨fuel - 1, by omega⟩
    simp only [skipNewlinesF, nextTok]
    rw [nextTokenF_nil]
    simp
  | succ m ih =>
    intro rem hlen ht pos fuel hf
    obtain ⟨f, rfl⟩ : ∃ f, fuel = f + 1 := ⟨fuel - 1, by omega⟩
    simp only [skipNewlinesF, nextTok]
    rcases trivia_nextTok ht pos (rem.length + 1) (by omega) with h | ⟨k, hk, h, htr⟩
    · rw [h]
      simp
    · rw [h]
      have hdl : (rem.drop (k + 1)).length = rem.length - (k + 1) := by
        simp [List.length_drop]
      have hrec := ih (rem.drop (k + 1)) (by omega) htr (pos + k + 1) f (by omega)
      simp only [reduceIte]
      rw [hrec]
      have ha : pos + k + 1 + (rem.drop (k + 1)).length = pos + rem.length := by
        rw [hdl]
        omega
      rw [ha]

/-- On a trivia source, `document` succeeds with the empty span. -/
theorem document_trivia (t : Src) (ht : Trivia t) : document t = .ok ⟨t, ⟨0, 0⟩⟩ := by
  have h := trivia_skipNewlines t.length t le_rfl ht 0 (t.length + 1) (by omega)
  simp [document, h]

/-! ## Claim C4 -/

/-- C4: `document` fails only with a lexical error (unclosed string or
unclosed block comment) found while scanning the input once; on every
source consisting only of whitespace, newlines, and well-formed comments
(the `Trivia` grammar, which includes the empty source), it succeeds and
returns a node with a zero-length span. -/
theorem claim4_document_errors (s t : Src) (e : Error) (he : document s = .error e)
    (ht : Trivia t) :
    (e.kind = .unclosedString ∨ e.kind = .unclosedComment) ∧
    document t = .ok ⟨t, ⟨0, 0⟩⟩ := by
  refine ⟨?_, document_trivia t ht⟩
  cases hn : skipNewlinesF (s.length + 1) 0 s with
  | error e' =>
    simp only [document, hn, Except.error.injEq] at he
    rw [← he]
    exact skipNewlinesF_error_kind (s.length + 1) 0 s (by omega) e' hn
  | ok trip =>
    obtain ⟨first, pos, rem⟩ := trip
    simp only [document, hn] at he
    split_ifs at he with hk
    cases hd : docLoopF (rem.length + 1) pos rem first.span with
    | error e' =>
      rw [hd] at he
      simp only [Except.error.injEq] at he
      rw [← he]
      exact docLoopF_error_kind (rem.length + 1) pos rem first.span (by omega) e' hd
    | ok sp =>
      rw [hd] at he
      exact absurd he (by simp)

/-- Witness for C4 at a concrete lexical failure and a concrete trivia
source. -/
theorem claim4_document_errors_witness :
    ((⟨.unclosedString, ⟨0, 2⟩⟩ : Error).kind = .unclosedString ∨
      (⟨.unclosedString, ⟨0, 2⟩⟩ : Error).kind = .unclosedComment) ∧
    document "  \n# c\n#* x *# \n".toList
      = .ok ⟨"  \n# c\n#* x *# \n".toList, ⟨0, 0⟩⟩ :=
  claim4_document_errors "\"x".toList "  \n# c\n#* x *# \n".toList
    ⟨.unclosedString, ⟨0, 2⟩⟩ rfl
    (by
      show Trivia (' ' :: ' ' :: '\n' :: '#' :: ([' ', 'c'] ++ '\n' ::
        ('#' :: '*' :: ([' ', 'x', ' '] ++ '*' :: '#' :: [' ', '\n']))))
      exact .ws ' ' _ (by decide) (.ws ' ' _ (by decide) (.nl _
        (.lineNl [' ', 'c'] _ (by decide) (by decide)
          (.block [' ', 'x', ' '] [' ', '\n'] (by decide)
            (.ws ' ' _ (by decide) (.nl _ .nil)))))))

/-- Every failure of `parse_balanced` is `UnexpectedEof` or an underlying
lexical error. -/
theorem parseBalancedF_error_kind : ∀ fuel closing pos rem depth e,
    parseBalancedF fuel closing pos rem depth = .error e →
    e.kind = .unexpectedEof ∨ e.kind = .unclosedString ∨ e.kind = .unclosedComment := by
  intro fuel
  induction fuel with
  | zero =>
    intro closing pos rem depth e h
    simp only [parseBalancedF, Except.error.injEq] at h
    rw [← h]
    left
    rfl
  | succ f ih =>
    intro closing pos rem depth e h
    simp only [parseBalancedF] at h
    split at h
    · rename_i e' hn
      simp only [Except.error.injEq] at h
      rw [← h]
      exact nextTokenF_error_kind _ _ _ e' hn
    · split at h <;>
        first
        | exact ih _ _ _ _ e h
        | (simp only [Except.error.injEq] at h
           rw [← h]
           left
           rfl)
        | (split_ifs at h
           exact ih _ _ _ _ e h)

/-- The result of `parse_balanced` does not depend on the expected closing
kind: the `depth == 0 && tok.kind == closing` check is dead code, because
the loop-exit path returns the same span. -/
theorem parseBalancedF_closing_irrel (fuel : Nat) :
    ∀ (c₁ c₂ : TokenKind) (pos : Nat) (rem : Src) (depth : Nat),
      parseBalancedF fuel c₁ pos rem depth = parseBalancedF fuel c₂ pos rem depth := by
  induction fuel with
  | zero => intro c₁ c₂ pos rem depth; rfl
  | succ f ih =>
    intro c₁ c₂ pos rem depth
    simp only [parseBalancedF]
    cases hn : nextTok pos rem with
    | error e => rfl
    | ok t =>
      obtain ⟨tok, pos', rem'⟩ := t
      obtain ⟨k, sp⟩ := tok
      cases k <;>
        first
        | rfl
        | exact ih _ _ _ _ _
        | (dsimp only
           split_ifs <;> first | rfl | exact ih _ _ _ _ _)

/-! ## Claim C2 -/

/-- C2 counterexample: scanning a value opened with `[` succeeds when the
shared depth counter reaches zero on `\x7d` — a closing token of the
non-matching kind.  `parse_balanced` returns that `\x7d`'s span, and the whole
table materialization succeeds with the value `[a\x7d`. -/
theorem claim2_counterexample :
    parseBalanced .rightBracket 1 ("[a\x7d ]".toList.drop 1) = .ok (⟨2, 1⟩, 3, [' ', ']']) ∧
    Span.extract ⟨2, 1⟩ "[a\x7d ]".toList = ['\x7d'] ∧
    ¬ ('\x7d' = ']') ∧
    (document "\x7b k: [a\x7d \x7d".toList).bind table
      = .ok [(['k'], ⟨"\x7b k: [a\x7d \x7d".toList, ⟨5, 3⟩⟩)] ∧
    text ⟨"\x7b k: [a\x7d \x7d".toList, ⟨5, 3⟩⟩ = .ok (.borrowed ['[', 'a', '\x7d']) :=
  ⟨rfl, rfl, by decide, rfl, rfl⟩

/-- C2 (amended): the scan tracks one depth counter shared by brace and
bracket tokens, and ends successfully at the first closing token of either
kind at which depth returns to zero — the matching-kind requirement has no
effect (the result is independent of the expected closing kind); reaching
`Eof` before that fails with `UnexpectedEof`, and every `parse_balanced`
failure is `UnexpectedEof` or an underlying lexical error. -/
theorem claim2_amended (fuel : Nat) (c₁ c₂ : TokenKind) (pos : Nat) (rem : Src) (depth : Nat)
    (fuel₂ : Nat) (c : TokenKind) (pos₂ : Nat) (rem₂ : Src) (d₂ : Nat) (e : Error)
    (herr : parseBalancedF fuel₂ c pos₂ rem₂ d₂ = .error e) :
    parseBalancedF fuel c₁ pos rem depth = parseBalancedF fuel c₂ pos rem depth ∧
    (e.kind = .unexpectedEof ∨ e.kind = .unclosedString ∨ e.kind = .unclosedComment) ∧
    parseBalanced .rightBracket 1 ("[a".toList.drop 1) = .error ⟨.unexpectedEof, ⟨2, 0⟩⟩ ∧
    (document "\x7b k: [a".toList).bind table = .error ⟨.unexpectedEof, ⟨7, 0⟩⟩ :=
  ⟨parseBalancedF_closing_irrel fuel c₁ c₂ pos rem depth,
   parseBalancedF_error_kind fuel₂ c pos₂ rem₂ d₂ e herr, rfl, rfl⟩

/-- Witness for C2's amended theorem at concrete inputs. -/
theorem claim2_amended_witness :
    parseBalancedF 3 .rightBrace 0 "[]".toList 1 = parseBalancedF 3 .rightBracket 0 "[]".toList 1 ∧
    ((⟨.unexpectedEof, ⟨2, 0⟩⟩ : Error).kind = .unexpectedEof ∨
      (⟨.unexpectedEof, ⟨2, 0⟩⟩ : Error).kind = .unclosedString ∨
      (⟨.unexpectedEof, ⟨2, 0⟩⟩ : Error).kind = .unclosedComment) ∧
    parseBalanced .rightBracket 1 ("[a".toList.drop 1) = .error ⟨.unexpectedEof, ⟨2, 0⟩⟩ ∧
    (document "\x7b k: [a".toList).bind table = .error ⟨.unexpectedEof, ⟨7, 0⟩⟩ :=
  claim2_amended 3 .rightBrace .rightBracket 0 "[]".toList 1
    2 .rightBracket 1 "a".toList 1 ⟨.unexpectedEof, ⟨2, 0⟩⟩ rfl

/-! ## Claim C1 -/

/-- C1 (code bug): the claim says that runs of separators are never an
error, and the repository's own test `test_multiple_trailing_delimiters`
expects `[a, b, c,,,]` to have three elements; but `node.rs` rejects two
commas with no intervening newline with `ConsecutiveDelimiters` (a variant
`error.rs` does not even declare).  The claim's own mixed-separator example
does hold. -/
theorem claim1_separator_runs :
    (document "[a, b, c,,,]".toList).bind vector
      = .error ⟨.consecutiveDelimiters, ⟨9, 1⟩⟩ ∧
    (document "\x7b a: 1,, b: 2 \x7d".toList).bind table
      = .error ⟨.consecutiveDelimiters, ⟨7, 1⟩⟩ ∧
    ((document "[a, b\nc, d]".toList).bind vector).map (List.map fun nd => text nd)
      = .ok [.ok (.borrowed ['a']), .ok (.borrowed ['b']), .ok (.borrowed ['c']),
             .ok (.borrowed ['d'])] :=
  ⟨rfl, rfl, rfl⟩

/-! ## Claim C5 -/

/-- C5: `table(document("\x7b key: value"))` fails on the unbalanced table at
navigation time (with `ExpectedChar(':')` at the end of input), while
`table(document("\x7b key: value \x7d"))` succeeds with exactly one entry
mapping `key` to the node whose text is `value`. -/
theorem claim5_nesting_balance :
    (document "\x7b key: value".toList).bind table
      = .error ⟨.expectedChar ':', ⟨12, 0⟩⟩ ∧
    (document "\x7b key: value \x7d".toList).bind table
      = .ok [(['k', 'e', 'y'], ⟨"\x7b key: value \x7d".toList, ⟨7, 5⟩⟩)] ∧
    text ⟨"\x7b key: value \x7d".toList, ⟨7, 5⟩⟩ = .ok (.borrowed ['v', 'a', 'l', 'u', 'e']) :=
  ⟨rfl, rfl, rfl⟩

/-! ## Claim C9 -/

/-- C9: no separator is required between container members; members
separated only by non-newline whitespace parse successfully.
`vector(document("[a b]"))` yields exactly `a` and `b`, and a table version
behaves the same. -/
theorem claim9_no_separator_needed :
    ((document "[a b]".toList).bind vector).map (List.map fun nd => text nd)
      = .ok [.ok (.borrowed ['a']), .ok (.borrowed ['b'])] ∧
    ((document "\x7b a: 1 b: 2 \x7d".toList).bind table).map
        (List.map fun p => (p.1, text p.2))
      = .ok [(['a'], .ok (.borrowed ['1'])), (['b'], .ok (.borrowed ['2']))] :=
  ⟨rfl, rfl⟩

/-! ## Claim C3 -/

/-- C3 counterexample: the claim says `uint64` rejects a leading `+`, but
Rust's `u64::from_str` accepts an optional leading `+`, so
`uint64("+42")` succeeds with 42 instead of failing. -/
theorem claim3_counterexample : uint64 (rootNode "+42") = .ok 42 := rfl

/-- C3 (amended): `uint64(node)` trims the raw text and succeeds exactly on
base-10 non-negative integers with an optional single leading `+` (a `-`,
a decimal point, emptiness, other non-digits, and overflow past the 64-bit
unsigned range all fail with `ParseError`); the boundary cases behave as
claimed except that `"+42"` succeeds with 42; `double("-42")` succeeds
with -42. -/
theorem claim3_amended (n : Node) (v : Nat) :
    (uint64 n = .ok v ↔ specUint64 (trim n.raw) = some v) ∧
    uint64 (rootNode "18446744073709551615") = .ok u64Max ∧
    uint64 (rootNode "18446744073709551616")
      = .error ⟨.parseError ("failed to parse as u64: ".toList ++ posOverflowMsg), ⟨0, 20⟩⟩ ∧
    uint64 (rootNode "-42")
      = .error ⟨.parseError ("failed to parse as u64: ".toList ++ invalidDigitMsg), ⟨0, 3⟩⟩ ∧
    uint64 (rootNode "+42") = .ok 42 ∧
    double (rootNode "-42") = .ok (.finite (-42)) := by
  refine ⟨?_, rfl, rfl, rfl, rfl, ?_⟩
  · show (match fromStrRadixU64 (trim n.raw) with
      | .ok v => (.ok v : Except Error Nat)
      | .error m => .error ⟨.parseError ("failed to parse as u64: ".toList ++ m), n.span⟩)
        = .ok v ↔ specUint64 (trim n.raw) = some v
    cases h : fromStrRadixU64 (trim n.raw) with
    | ok w =>
      have hs := (fromStrRadixU64_ok_iff (trim n.raw) w).mp h
      rw [hs]
      simp
    | error m =>
      constructor
      · intro hc; exact absurd hc (by simp)
      · intro hspec
        have h2 := (fromStrRadixU64_ok_iff (trim n.raw) v).mpr hspec
        rw [h2] at h
        exact absurd h (by simp)
  · have h0 : double (rootNode "-42")
        = .ok (.finite (decValue true ['4', '2'] (-(0 : Int)))) := by rfl
    have h1 : natOfDigits ['4', '2'] = 42 := by decide
    rw [h0]
    simp [decValue, h1]

/-! ## Claim C7 -/

/-- C7: `table` and `vector` act as type guards decided by the first
character of the trimmed text: any node not starting with the expected
opener fails immediately with `NotATable`/`NotAVector` at the node's span;
in particular `vector` on a table source, `table` on a vector source, and
both on a bare scalar fail. -/
theorem claim7_shape_guards (n1 n2 : Node)
    (h1 : ¬ (trim n1.raw).head? = some '\x7b')
    (h2 : ¬ (trim n2.raw).head? = some '[') :
    table n1 = .error ⟨.notATable, n1.span⟩ ∧
    vector n2 = .error ⟨.notAVector, n2.span⟩ ∧
    vector (rootNode "\x7b key: value \x7d") = .error ⟨.notAVector, ⟨0, 14⟩⟩ ∧
    table (rootNode "[a, b, c]") = .error ⟨.notATable, ⟨0, 9⟩⟩ ∧
    table (rootNode "scalar_value") = .error ⟨.notATable, ⟨0, 12⟩⟩ ∧
    vector (rootNode "scalar_value") = .error ⟨.notAVector, ⟨0, 12⟩⟩ := by
  refine ⟨?_, ?_, rfl, rfl, rfl, rfl⟩
  · simp only [table]
    rw [if_pos h1]
  · simp only [vector]
    rw [if_pos h2]

/-- Witness for C7 at concrete nodes. -/
theorem claim7_shape_guards_witness :
    table (rootNode "zig") = .error ⟨.notATable, ⟨0, 3⟩⟩ ∧
    vector (rootNode "zig") = .error ⟨.notAVector, ⟨0, 3⟩⟩ ∧
    vector (rootNode "\x7b key: value \x7d") = .error ⟨.notAVector, ⟨0, 14⟩⟩ ∧
    table (rootNode "[a, b, c]") = .error ⟨.notATable, ⟨0, 9⟩⟩ ∧
    table (rootNode "scalar_value") = .error ⟨.notATable, ⟨0, 12⟩⟩ ∧
    vector (rootNode "scalar_value") = .error ⟨.notAVector, ⟨0, 12⟩⟩ :=
  claim7_shape_guards (rootNode "zig") (rootNode "zig") (by decide) (by decide)

/-! ## Claim C8 -/

/-- The escape loop of `text` never allocates when the input contains no
backslash. -/
theorem textLoop_no_escape (inner : Src) (sp : Span) :
    ∀ chars pos, ¬ '\\' ∈ chars → textLoop inner sp chars none pos = .ok none := by
  intro chars
  induction chars with
  | nil => intro pos _; rfl
  | cons c t ih =>
    intro pos h
    have hc : ¬ c = '\\' := fun he => h (by rw [he]; exact List.mem_cons_self _ _)
    simp only [textLoop, if_neg hc]
    exact ih (pos + 1) (fun hm => h (List.mem_cons_of_mem c hm))

/-- C8 counterexample: the trimmed text of `"ab"` (quotes included) contains
no escape, yet `text` returns the interior `ab`, not the trimmed substring
`"ab"`. -/
theorem claim8_counterexample :
    ¬ '\\' ∈ trim (rootNode "\"ab\"").raw ∧
    text (rootNode "\"ab\"") = .ok (.borrowed ['a', 'b']) ∧
    ¬ text (rootNode "\"ab\"") = .ok (.borrowed (trim (rootNode "\"ab\"").raw)) :=
  ⟨by decide, rfl, by decide⟩

/-- C8 (amended): for every node whose trimmed text is nonempty and not
quoted, `text` returns exactly that trimmed substring, borrowed (verbatim,
no escape processing); for a quoted node without escapes, `text` returns the
interior between the quotes, borrowed (without copying). -/
theorem claim8_amended (n1 n2 : Node)
    (h1 : ¬ trim n1.raw = []) (h2 : ¬ (trim n1.raw).head? = some '"')
    (h3 : (trim n2.raw).head? = some '"') (h4 : (trim n2.raw).getLast? = some '"')
    (h5 : 2 ≤ (trim n2.raw).length)
    (h6 : ¬ '\\' ∈ ((trim n2.raw).drop 1).dropLast) :
    text n1 = .ok (.borrowed (trim n1.raw)) ∧
    text n2 = .ok (.borrowed (((trim n2.raw).drop 1).dropLast)) := by
  constructor
  · simp only [text]
    rw [if_neg h1, if_neg h2]
  · have h0 : ¬ trim n2.raw = [] := by
      intro he
      rw [he] at h3
      exact absurd h3 (by simp)
    simp only [text]
    rw [if_neg h0, if_pos h3, if_pos ⟨h4, h5⟩, textLoop_no_escape _ _ _ _ h6]

/-- Witness for C8's amended theorem at concrete nodes. -/
theorem claim8_amended_witness :
    text (rootNode "hi") = .ok (.borrowed (trim (rootNode "hi").raw)) ∧
    text (rootNode "\"hi\"")
      = .ok (.borrowed (((trim (rootNode "\"hi\"").raw).drop 1).dropLast)) :=
  claim8_amended (rootNode "hi") (rootNode "\"hi\"")
    (by decide) (by decide) (by decide) (by decide) (by decide) (by decide)

/-! ## Claim C10 -/

/-- `u64::from_str` on text beginning with a quote fails with invalid digit. -/
theorem fromStrRadixU64_quote (cs : Src) :
    fromStrRadixU64 ('"' :: cs) = .error invalidDigitMsg := by
  have h1 : charToDigit '"' = none := by decide
  simp [fromStrRadixU64, fromStrRadixLoop, h1]

/-- `f64::from_str` on text beginning with a quote fails. -/
theorem dec2flt_quote (cs : Src) :
    dec2flt ('"' :: cs) = .error invalidFloatMsg := by
  have hd : isDigitCh '"' = false := by decide
  simp [dec2flt, parseNumber, parseSpecial, digitSpan, eqIgnoreAsciiCase, asciiLower, hd]

/-- C10: `uint64` and `double` parse the raw trimmed text without stripping
quotes or resolving escapes: every node whose trimmed text starts with a
quote fails both coercions with `ParseError`, even though `text` on for
example `"42"` succeeds with the digit string. -/
theorem claim10_quoted_numeric (n : Node) (h : (trim n.raw).head? = some '"') :
    uint64 n = .error
      ⟨.parseError ("failed to parse as u64: ".toList ++ invalidDigitMsg), n.span⟩ ∧
    double n = .error
      ⟨.parseError ("failed to parse as f64: ".toList ++ invalidFloatMsg), n.span⟩ ∧
    uint64 (rootNode "\"42\"")
      = .error ⟨.parseError ("failed to parse as u64: ".toList ++ invalidDigitMsg), ⟨0, 4⟩⟩ ∧
    double (rootNode "\"42\"")
      = .error ⟨.parseError ("failed to parse as f64: ".toList ++ invalidFloatMsg), ⟨0, 4⟩⟩ ∧
    text (rootNode "\"42\"") = .ok (.borrowed ['4', '2']) := by
  obtain ⟨cs, hcs⟩ : ∃ cs, trim n.raw = '"' :: cs := by
    cases hc : trim n.raw with
    | nil => rw [hc] at h; exact absurd h (by simp)
    | cons a t =>
      rw [hc] at h
      simp only [List.head?_cons, Option.some.injEq] at h
      exact ⟨t, by rw [h]⟩
  refine ⟨?_, ?_, rfl, rfl, rfl⟩
  · show (match fromStrRadixU64 (trim n.raw) with
      | .ok v => (.ok v : Except Error Nat)
      | .error m => .error ⟨.parseError ("failed to parse as u64: ".toList ++ m), n.span⟩) = _
    rw [hcs, fromStrRadixU64_quote]
  · show (match dec2flt (trim n.raw) with
      | .ok v => (.ok v : Except Error FloatVal)
      | .error m => .error ⟨.parseError ("failed to parse as f64: ".toList ++ m), n.span⟩) = _
    rw [hcs, dec2flt_quote]

/-- Witness for C10 at a concrete quoted-numeric node. -/
theorem claim10_quoted_numeric_witness :
    uint64 (rootNode "\"7\"") = .error
      ⟨.parseError ("failed to parse as u64: ".toList ++ invalidDigitMsg),
        (rootNode "\"7\"").span⟩ ∧
    double (rootNode "\"7\"") = .error
      ⟨.parseError ("failed to parse as f64: ".toList ++ invalidFloatMsg),
        (rootNode "\"7\"").span⟩ ∧
    uint64 (rootNode "\"42\"")
      = .error ⟨.parseError ("failed to parse as u64: ".toList ++ invalidDigitMsg), ⟨0, 4⟩⟩ ∧
    double (rootNode "\"42\"")
      = .error ⟨.parseError ("failed to parse as f64: ".toList ++ invalidFloatMsg), ⟨0, 4⟩⟩ ∧
    text (rootNode "\"42\"") = .ok (.borrowed ['4', '2']) :=
  claim10_quoted_numeric (rootNode "\"7\"") (by decide)

/-! ## Claim C6 -/

/-- Auxiliary: a list with non-whitespace first and last characters trims to
itself; specialized to a quoted form. -/
theorem trim_quoted (m : Src) : trim ('"' :: m ++ ['"']) = '"' :: m ++ ['"'] := by
  apply trim_eq_self
  · intro c hc
    rw [List.cons_append, List.head?_cons] at hc
    cases hc
    decide
  · intro c hc
    rw [show ('"' :: m ++ ['"'] : Src) = ('"' :: m) ++ ['"'] from rfl,
      List.getLast?_concat] at hc
    cases hc
    decide

/-- C6: over a quoted string, `text` decodes each of the ten escape pairs to
its literal character; any other escaped character `y` fails
`InvalidEscape(y)`; a lone trailing backslash in the quoted content fails
`UnexpectedEof`. -/
theorem claim6_escapes (y : Char)
    (hy : ¬ y ∈ ['\\', 'n', 't', 'r', ':', '"', '[', ']', '\x7b', '\x7d']) :
    (∀ p ∈ [('\\', '\\'), ('n', '\n'), ('t', '\t'), ('r', '\r'), (':', ':'), ('"', '"'),
            ('[', '['), (']', ']'), ('\x7b', '\x7b'), ('\x7d', '\x7d')],
      text ⟨['"', '\\', p.1, '"'], ⟨0, 4⟩⟩ = .ok (.owned [p.2])) ∧
    text ⟨['"', '\\', y, '"'], ⟨0, 4⟩⟩ = .error ⟨.invalidEscape y, ⟨0, 4⟩⟩ ∧
    text ⟨['"', 'a', '\\', '"'], ⟨0, 4⟩⟩ = .error ⟨.unexpectedEof, ⟨0, 4⟩⟩ := by
  refine ⟨by decide, ?_, by decide⟩
  have hmem := hy
  simp only [List.mem_cons, List.not_mem_nil, or_false, not_or] at hmem
  obtain ⟨e1, e2, e3, e4, e5, e6, e7, e8, e9, e10⟩ := hmem
  have hesc : escapeChar y = none := by
    simp [escapeChar, e1, e2, e3, e4, e5, e6, e7, e8, e9, e10]
  have hraw : (⟨['"', '\\', y, '"'], ⟨0, 4⟩⟩ : Node).raw = ['"', '\\', y, '"'] := by
    show Span.extract ⟨0, 4⟩ ['"', '\\', y, '"'] = _
    unfold Span.extract
    rw [List.drop_zero]
    exact List.take_of_length_le (by simp)
  have htrim : trim ['"', '\\', y, '"'] = ['"', '\\', y, '"'] := by
    have := trim_quoted ['\\', y]
    simpa using this
  simp only [text, hraw, htrim]
  rw [if_neg (by simp), if_pos (by simp),
    if_pos ⟨by rw [show (['"', '\\', y, '"'] : Src) = ('"' :: ['\\', y]) ++ ['"'] from rfl,
      List.getLast?_concat], by simp⟩]
  show (match textLoop ['\\', y] ⟨0, 4⟩ ['\\', y] none 0 with
    | .error e => (.error e : Except Error Cow)
    | .ok none => .ok (.borrowed ['\\', y])
    | .ok (some s) => .ok (.owned s)) = _
  rw [show textLoop ['\\', y] ⟨0, 4⟩ ['\\', y] none 0
      = .error ⟨.invalidEscape y, ⟨0, 4⟩⟩ by simp [textLoop, hesc]]

/-- Witness for C6 at the concrete escape character `z`. -/
theorem claim6_escapes_witness :
    (∀ p ∈ [('\\', '\\'), ('n', '\n'), ('t', '\t'), ('r', '\r'), (':', ':'), ('"', '"'),
            ('[', '['), (']', ']'), ('\x7b', '\x7b'), ('\x7d', '\x7d')],
      text ⟨['"', '\\', p.1, '"'], ⟨0, 4⟩⟩ = .ok (.owned [p.2])) ∧
    text ⟨['"', '\\', 'z', '"'], ⟨0, 4⟩⟩ = .error ⟨.invalidEscape 'z', ⟨0, 4⟩⟩ ∧
    text ⟨['"', 'a', '\\', '"'], ⟨0, 4⟩⟩ = .error ⟨.unexpectedEof, ⟨0, 4⟩⟩ :=
  claim6_escapes 'z' (by decide)

/-- Witness for C3's amended theorem at a concrete node. -/
theorem claim3_amended_witness :
    (uint64 (rootNode "7") = .ok 7 ↔ specUint64 (trim (rootNode "7").raw) = some 7) ∧
    uint64 (rootNode "18446744073709551615") = .ok u64Max ∧
    uint64 (rootNode "18446744073709551616")
      = .error ⟨.parseError ("failed to parse as u64: ".toList ++ posOverflowMsg), ⟨0, 20⟩⟩ ∧
    uint64 (rootNode "-42")
      = .error ⟨.parseError ("failed to parse as u64: ".toList ++ invalidDigitMsg), ⟨0, 3⟩⟩ ∧
    uint64 (rootNode "+42") = .ok 42 ∧
    double (rootNode "-42") = .ok (.finite (-42)) :=
  claim3_amended (rootNode "7") 7

end Nosr
